import Mathlib

/-!
Shallow embedding of `flask_thumbnails/thumbnail.py` (package Flask-thumbnails):
the thumbnail-cache core.  Covered: size parsing and canonicalization,
fingerprint filename derivation, the resize / background-padding / color-mode
transform pipeline, and the check-cache-then-generate-then-persist control
flow of `Thumbnail.get_thumbnail`.

Modelling conventions: Python strings are Lean `String` and are processed
through their underlying `List Char` (all definitions are structural, so
concrete instances evaluate inside the kernel); the posixpath operations the
source calls (`os.path.split`, `os.path.join`, `os.path.splitext`) are
embedded directly; the storage backend is an association list satisfying the
read / exists / save contract of the spec; the Pillow imaging primitives
(external collaborators) are modelled by their effect on image metadata
(width, height, mode, format).  `utils.py` is imported by `thumbnail.py` but
is not part of this source tree, so `parse_size`, `aspect_to_string` and
`generate_filename` are modelled from the spec; each such definition says so
in its doc comment.
-/

namespace FlaskThumbnails

/-- Decimal digit list of a natural number, most significant digit first,
written with structural fuel recursion so that concrete applications reduce
definitionally.  Together with `natStr` this models Python `str(n)` for a
nonnegative integer. -/
def natDigitsGo : Nat → Nat → List Char
  | 0, _ => []
  | fuel + 1, n =>
    if n < 10 then [Nat.digitChar n]
    else natDigitsGo fuel (n / 10) ++ [Nat.digitChar (n % 10)]

/-- Models Python `str(n)` for a natural number. -/
def natStr (n : Nat) : String :=
  ⟨natDigitsGo (n + 1) n⟩

/-- Numeric value of a decimal digit character. -/
def digitVal (c : Char) : Nat := c.toNat - 48

/-- Value of a most-significant-first decimal digit list. -/
def decimalValue (cs : List Char) : Nat :=
  cs.foldl (fun a c => a * 10 + digitVal c) 0

/-- Models Python `str.split(sep)` on character lists. -/
def splitOnChar (sep : Char) : List Char → List (List Char)
  | [] => [[]]
  | c :: rest =>
    if c = sep then [] :: splitOnChar sep rest
    else
      match splitOnChar sep rest with
      | [] => [[c]]
      | g :: gs => (c :: g) :: gs

/-- Size specification as handed to `get_thumbnail`: a Python int or str. -/
inductive SizeSpec where
  | int (n : Int)
  | str (s : String)
deriving DecidableEq

/-- Errors of the core that propagate to the caller: `InvalidSizeError` from
size parsing, the storage backend's `NotFoundError`, and the uncaught
exception `Image.open` raises for unidentifiable bytes (line 101 sits
outside the try block of lines 102-106, so this failure is not recovered). -/
inductive ThumbError where
  | invalidSize
  | notFound
  | unidentifiedImage
deriving DecidableEq

/-- Parse one size component: a nonempty all-digit string with positive
value; anything else is rejected. -/
def parsePosDigits (cs : List Char) : Option Nat :=
  if cs ≠ [] ∧ cs.all Char.isDigit then
    if 0 < decimalValue cs then some (decimalValue cs) else none
  else none

/-- Modelled from the spec: `utils.parse_size` is imported by `thumbnail.py`
but `utils.py` is not part of this source tree.  Spec §4.1: a single positive
integer N parses to (N, N); a "WxH" descriptor parses to (W, H) with both
components required to be positive integers; zero or negative values,
non-numeric components and malformed descriptors fail with
`InvalidSizeError`. -/
def parse_size : SizeSpec → Except ThumbError (Nat × Nat)
  | .int n => if 0 < n then .ok (n.toNat, n.toNat) else .error .invalidSize
  | .str s =>
    match (splitOnChar 'x' s.data).map parsePosDigits with
    | [some w, some h] => .ok (w, h)
    | _ => .error .invalidSize

instance {ε α : Type} [DecidableEq ε] [DecidableEq α] :
    DecidableEq (Except ε α)
  | .error e, .error f =>
    if h : e = f then isTrue (congrArg Except.error h)
    else isFalse (fun hh => h (Except.error.inj hh))
  | .error _, .ok _ => isFalse (fun hh => Except.noConfusion hh)
  | .ok _, .error _ => isFalse (fun hh => Except.noConfusion hh)
  | .ok a, .ok b =>
    if h : a = b then isTrue (congrArg Except.ok h)
    else isFalse (fun hh => h (Except.ok.inj hh))

/-- Canonical "WxH" rendering of a parsed size. -/
def aspectString (wh : Nat × Nat) : String :=
  natStr wh.1 ++ "x" ++ natStr wh.2

/-- Modelled from the spec: `utils.aspect_to_string` is imported by
`thumbnail.py` but `utils.py` is not part of this source tree.  Spec §4.1:
renders the parsed size back into its canonical "WxH" textual form, used for
fingerprinting, independent of how the caller originally expressed it. -/
def aspect_to_string (size : SizeSpec) : Option String :=
  (parse_size size).toOption.map aspectString

/-- Slash-freedom of a string (a path component). -/
def noSlash (s : String) : Bool := s.data.all (fun c => c ≠ '/')

/-- Last path segment of a character list: everything after the final '/'. -/
def lastSeg (cs : List Char) : List Char :=
  (cs.reverse.takeWhile (fun c => c ≠ '/')).reverse

/-- Embeds `os.path.split` (posixpath): the tail is everything after the
final slash; the head is everything up to and including the final slash,
with trailing slashes stripped unless the head consists only of slashes. -/
def pathSplit (p : String) : String × String :=
  let cs := p.data
  let tail := (cs.reverse.takeWhile (fun c => c ≠ '/')).reverse
  let head := cs.take (cs.length - tail.length)
  let headStripped :=
    if head ≠ [] ∧ head.any (fun c => c ≠ '/') then
      (head.reverse.dropWhile (fun c => c = '/')).reverse
    else head
  (⟨headStripped⟩, ⟨tail⟩)

/-- Embeds one step of `os.path.join` (posixpath): an absolute second
component replaces the path; otherwise the parts are joined, inserting a
slash unless the accumulated path is empty or already ends in one. -/
def joinTwo (a b : String) : String :=
  if b.data.head? = some '/' then b
  else if a = "" ∨ a.data.getLast? = some '/' then a ++ b
  else a ++ "/" ++ b

/-- Embeds `os.path.join(a, b, c)` as used by `get_thumbnail`. -/
def pathJoin3 (a b c : String) : String := joinTwo (joinTwo a b) c

/-- Embeds `os.path.splitext` for slash-free filenames: split at the last
dot, except that a name whose characters before that dot are all dots (in
particular a leading-dot name) has no extension. -/
def splitExt (s : String) : String × String :=
  let rts := s.data.reverse.takeWhile (fun c => c ≠ '.')
  match s.data.reverse.dropWhile (fun c => c ≠ '.') with
  | [] => (s, "")
  | d :: stemRev =>
    if stemRev.all (fun c => c = '.') then (s, "")
    else (⟨stemRev.reverse⟩, ⟨d :: rts.reverse⟩)

/-- Metadata of a decoded Pillow image.  Pixel data is owned by the external
imaging library; every decision taken by this core depends only on the size,
the color mode and the native format of the image. -/
structure Image where
  width : Nat
  height : Nat
  mode : String
  format : String
deriving DecidableEq

/-- Embeds `Thumbnail.colormode` (thumbnail.py lines 147-159): for an
RGB-family target an RGBA image is returned as is, an LA image is converted
to RGBA and anything else to the target; a GRAY target converts to "L"; any
other target is a direct conversion.  The external `Image.convert` primitive
is modelled as the mode update it performs. -/
def colormode (image : Image) (cm : String := "RGB") : Image :=
  if cm = "RGB" ∨ cm = "RGBA" then
    if image.mode = "RGBA" then image
    else if image.mode = "LA" then { image with mode := "RGBA" }
    else { image with mode := cm }
  else if cm = "GRAY" then { image with mode := "L" }
  else { image with mode := cm }

/-- Outcome of `Thumbnail.background` (lines 161-170): a square canvas
created by `Image.new("L", size, color)` with the original image pasted at
the offsets `(x[0] - x[1]) / 2` computed by Python 3 true division, recorded
here exactly as rational numbers. -/
structure PaddedImage where
  canvasSide : Nat
  canvasMode : String
  canvasFill : Nat
  pasteOffsetX : ℚ
  pasteOffsetY : ℚ
deriving DecidableEq

/-- Embeds `Thumbnail.background` (lines 161-170): the canvas side is
`max(original_image.size)` and the fill level defaults to 0xFF; the caller in
`_create_thumbnail` never passes a color. -/
def background (originalImage : Image) (color : Nat := 0xFF) : PaddedImage :=
  let side := max originalImage.width originalImage.height
  { canvasSide := side
    canvasMode := "L"
    canvasFill := color
    pasteOffsetX := ((side : ℚ) - (originalImage.width : ℚ)) / 2
    pasteOffsetY := ((side : ℚ) - (originalImage.height : ℚ)) / 2 }

/-- The padded canvas viewed as the image `Thumbnail.background` returns
(pasting does not change the canvas metadata). -/
def PaddedImage.toImage (p : PaddedImage) : Image :=
  { width := p.canvasSide, height := p.canvasSide, mode := p.canvasMode,
    format := "" }

/-- External imaging primitive `ImageOps.fit(image, size, ...)`: a resized
and cropped copy of exactly the requested size (cover semantics), mode
preserved. -/
def pilFit (image : Image) (size : Nat × Nat) : Image :=
  { image with width := size.1, height := size.2 }

/-- External imaging primitive `Image.thumbnail(size)` (classic PIL
algorithm, size computation): clamp the width to the bound, rescaling the
height proportionally (floor, at least 1), then clamp the height likewise;
never upscales. -/
def pilThumbnailSize (w h bw bh : Nat) : Nat × Nat :=
  let p := if bw < w then (bw, max (h * bw / w) 1) else (w, h)
  if bh < p.2 then (max (p.1 * bh / p.2) 1, bh) else p

/-- `Image.thumbnail` applied to a copy of the image, as in
`_create_thumbnail`'s non-fit branch. -/
def pilThumbnail (image : Image) (size : Nat × Nat) : Image :=
  let wh := pilThumbnailSize image.width image.height size.1 size.2
  { image with width := wh.1, height := wh.2 }

/-- A Python value of which the control flow observes only truthiness (the
`background` option value). -/
structure PyValue where
  truthy : Bool
deriving DecidableEq

/-- Per-call options dictionary of `get_thumbnail`: `none` models an absent
key, so `options.get("crop", "fit")` is `crop.getD "fit"`, and so on. -/
structure Options where
  crop : Option String := none
  background : Option PyValue := none
  quality : Option Nat := none
  format : Option String := none
deriving DecidableEq

/-- Embeds `Thumbnail._create_thumbnail` (lines 172-184): fit mode uses
`ImageOps.fit`, any other crop token resizes a copy with `Image.thumbnail`;
the background square is applied when the background option is not None; the
color-mode normalization always runs last with its default "RGB" target. -/
def _create_thumbnail (image : Image) (size : Nat × Nat) (crop : String := "fit")
    (backgroundOpt : Option PyValue := none) : Image :=
  let resized := if crop = "fit" then pilFit image size else pilThumbnail image size
  let padded :=
    if backgroundOpt.isSome then (background resized).toImage else resized
  colormode padded

/-- Filename derivation from the stem: join the stem with the canonical size
string, the crop mode, a marker for background presence, and the quality
value by underscores, then append the resolved output extension. -/
def filenameOfStem (stem sizeStr crop : String) (backgroundFlag : Bool)
    (quality : Nat) (extension : String) : String :=
  stem ++ "_" ++ sizeStr ++ "_" ++ crop ++
    (if backgroundFlag then "_background" else "") ++ "_" ++ natStr quality ++
    "." ++ extension

/-- Modelled from the spec: `utils.generate_filename` is imported by
`thumbnail.py` but `utils.py` is not part of this source tree.  Spec §4.2:
split the original filename into stem and original extension, build a
deterministic token sequence from the canonical size string, the crop mode, a
flag for background presence and the quality value, join them with the stem
using underscores, and append the resolved output extension; per the spec's
example "a_100x100_fit_85.jpg" the background token is omitted when no
background was requested. -/
def generate_filename (originalFilename sizeStr crop : String)
    (backgroundFlag : Bool) (quality : Nat) (extension : String) : String :=
  filenameOfStem (splitExt originalFilename).1 sizeStr crop backgroundFlag
    quality extension

/-- Storage backend state: a path-to-bytes association list satisfying the
read / exists / save contract of spec §6. -/
structure Storage where
  files : List (String × List Nat)
deriving DecidableEq

/-- StorageBackend `read`: bytes at a path, `none` when absent. -/
def Storage.read (s : Storage) (p : String) : Option (List Nat) :=
  (s.files.find? (fun kv => decide (kv.1 = p))).map (fun kv => kv.2)

/-- StorageBackend `exists`. -/
def Storage.existsFile (s : Storage) (p : String) : Bool :=
  (s.files.find? (fun kv => decide (kv.1 = p))).isSome

/-- StorageBackend `save`. -/
def Storage.save (s : Storage) (p : String) (b : List Nat) : Storage :=
  ⟨(p, b) :: s.files⟩

/-- Models Python `str.lower()` for the ASCII format tokens the core
handles. -/
def strLower (s : String) : String := ⟨s.data.map Char.toLower⟩

/-- External collaborators and configuration of a `get_thumbnail` call: the
directories and URL root resolved from `app.config`, the configured default
format (`None` or empty means unset, by Python truthiness), and the codec,
whose decoding happens in two stages exactly as in the source:
`openImage` models `Image.open` (line 101, outside the try block) — `none`
means the bytes are not an identifiable image and the exception propagates
uncaught; `load` models `image.load()` (line 103, inside the try block) —
`false` means the pixel data fails to load, the IOError/OSError that is
caught at lines 104-106.  `encode` is the codec's deterministic encoding,
the bytes `Image.save` emits for an image, format and quality. -/
structure Env where
  rootDirectory : String
  thumbnailDirectory : String
  thumbnailUrlRoot : String
  defaultFormat : Option String
  openImage : List Nat → Option Image
  load : Image → Bool
  encode : Image → String → Nat → List Nat

/-- Python truthiness filter for an optional string. -/
def truthyString : Option String → Option String
  | some s => if s = "" then none else some s
  | none => none

/-- Embeds `Thumbnail.get_format` (lines 138-145): a truthy per-call format
option wins, else a truthy configured default, else the decoded image's
native format; explicit formats are lowercased. -/
def get_format (env : Env) (image : Image) (fmtOption : Option String) : String :=
  match truthyString fmtOption with
  | some f => strLower f
  | none =>
    match truthyString env.defaultFormat with
    | some f => strLower f
    | none => image.format

/-- Resolved path of the original under the media root (lines 96-99). -/
def originalFilepathOf (env : Env) (original : String) : String :=
  pathJoin3 env.rootDirectory (pathSplit original).1 (pathSplit original).2

/-- Fingerprinted thumbnail filename for a call (lines 110-117); once
`parse_size` has succeeded, `utils.aspect_to_string(size)` is the canonical
rendering `aspectString wh` of the parsed size. -/
def thumbnailFilenameOf (env : Env) (image : Image) (original : String)
    (wh : Nat × Nat) (opts : Options) : String :=
  generate_filename (pathSplit original).2 (aspectString wh)
    (opts.crop.getD "fit") opts.background.isSome (opts.quality.getD 90)
    (get_format env image opts.format)

/-- Thumbnail target path under the thumbnail root (lines 118-120). -/
def thumbnailFilepathOf (env : Env) (image : Image) (original : String)
    (wh : Nat × Nat) (opts : Options) : String :=
  pathJoin3 env.thumbnailDirectory (pathSplit original).1
    (thumbnailFilenameOf env image original wh opts)

/-- Public thumbnail URL (lines 121-123). -/
def thumbnailUrlOf (env : Env) (image : Image) (original : String)
    (wh : Nat × Nat) (opts : Options) : String :=
  pathJoin3 env.thumbnailUrlRoot (pathSplit original).1
    (thumbnailFilenameOf env image original wh opts)

/-- Storage interactions performed by one `get_thumbnail` call. -/
structure Trace where
  reads : List String
  existsChecks : List String
  writes : List (String × List Nat)
deriving DecidableEq

/-- Embeds `Thumbnail.get_thumbnail` (lines 89-136).  The result is the
returned reference (the thumbnail URL, or the resolved original path when
`image.load()` fails inside the try block) together with the storage state
after the call and the trace of storage interactions; `InvalidSizeError`
from `parse_size`, the storage backend's `NotFoundError`, and the uncaught
exception from `Image.open` (line 101, outside the try block) propagate as
errors. -/
def get_thumbnail (env : Env) (storage : Storage) (original : String)
    (size : SizeSpec) (opts : Options) :
    Except ThumbError (String × Storage × Trace) :=
  let crop := opts.crop.getD "fit"
  let quality := opts.quality.getD 90
  match parse_size size with
  | .error e => .error e
  | .ok thumbnailSize =>
    let originalFilepath := originalFilepathOf env original
    match storage.read originalFilepath with
    | none => .error .notFound
    | some rawBytes =>
      match env.openImage rawBytes with
      | none => .error .unidentifiedImage
      | some image =>
        if env.load image then
          let thumbnailFilepath :=
            thumbnailFilepathOf env image original thumbnailSize opts
          let thumbnailUrl := thumbnailUrlOf env image original thumbnailSize opts
          if storage.existsFile thumbnailFilepath then
            .ok (thumbnailUrl, storage,
              ⟨[originalFilepath], [thumbnailFilepath], []⟩)
          else
            let result := _create_thumbnail image thumbnailSize crop opts.background
            let data :=
              env.encode result (get_format env image opts.format) quality
            .ok (thumbnailUrl, storage.save thumbnailFilepath data,
              ⟨[originalFilepath], [thumbnailFilepath], [(thumbnailFilepath, data)]⟩)
        else
          .ok (originalFilepath, storage, ⟨[originalFilepath], [], []⟩)

theorem digitVal_digitChar (n : Nat) (h : n < 10) :
    digitVal (Nat.digitChar n) = n := by
  interval_cases n <;> rfl

theorem digitChar_isDigit (n : Nat) (h : n < 10) :
    (Nat.digitChar n).isDigit = true := by
  interval_cases n <;> rfl

theorem natDigitsGo_value (fuel : Nat) :
    ∀ n a : Nat, n < fuel →
      (natDigitsGo fuel n).foldl (fun a c => a * 10 + digitVal c) a
        = a * 10 ^ (natDigitsGo fuel n).length + n := by
  induction fuel with
  | zero => intro n a h; omega
  | succ fuel ih =>
    intro n a h
    by_cases h10 : n < 10
    · simp only [natDigitsGo, if_pos h10, List.foldl_cons, List.foldl_nil,
        List.length_singleton, pow_one, digitVal_digitChar n h10]
    · have hdiv : n / 10 < n := Nat.div_lt_self (by omega) (by omega)
      have hfuel : n / 10 < fuel := by omega
      simp only [natDigitsGo, if_neg h10, List.foldl_append, List.foldl_cons,
        List.foldl_nil, List.length_append, List.length_singleton]
      rw [ih (n / 10) a hfuel, digitVal_digitChar (n % 10) (Nat.mod_lt n (by omega))]
      have hmod := Nat.div_add_mod n 10
      ring_nf
      omega

theorem natStr_injective {m n : Nat} (h : natStr m = natStr n) : m = n := by
  have hd : natDigitsGo (m + 1) m = natDigitsGo (n + 1) n :=
    congrArg String.data h
  have hm := natDigitsGo_value (m + 1) m 0 (by omega)
  have hn := natDigitsGo_value (n + 1) n 0 (by omega)
  rw [hd] at hm
  omega

theorem natDigitsGo_isDigit (fuel : Nat) :
    ∀ n : Nat, ∀ c ∈ natDigitsGo fuel n, c.isDigit = true := by
  induction fuel with
  | zero => intro n c hc; simp [natDigitsGo] at hc
  | succ fuel ih =>
    intro n c hc
    by_cases h10 : n < 10
    · simp only [natDigitsGo, if_pos h10, List.mem_singleton] at hc
      exact hc ▸ digitChar_isDigit n h10
    · simp only [natDigitsGo, if_neg h10, List.mem_append,
        List.mem_singleton] at hc
      rcases hc with hc | hc
      · exact ih (n / 10) c hc
      · exact hc ▸ digitChar_isDigit (n % 10) (Nat.mod_lt n (by omega))

theorem natDigitsGo_ne_nil (fuel n : Nat) (h : 0 < fuel) :
    natDigitsGo fuel n ≠ [] := by
  match fuel, h with
  | fuel + 1, _ =>
    by_cases h10 : n < 10 <;> simp [natDigitsGo, h10]

theorem isDigit_ne (c : Char) (d : Char) (hc : c.isDigit = true)
    (hd : d.isDigit = false) : c ≠ d := by
  intro h; rw [h] at hc; rw [hc] at hd; exact Bool.noConfusion hd

theorem splitOnChar_ne_nil (sep : Char) (cs : List Char) :
    splitOnChar sep cs ≠ [] := by
  cases cs with
  | nil => simp [splitOnChar]
  | cons c rest =>
    by_cases h : c = sep
    · simp [splitOnChar, h]
    · simp only [splitOnChar, if_neg h]
      split <;> simp

theorem splitOnChar_of_not_mem (sep : Char) (cs : List Char)
    (h : ∀ c ∈ cs, c ≠ sep) : splitOnChar sep cs = [cs] := by
  induction cs with
  | nil => rfl
  | cons c rest ih =>
    have hc : c ≠ sep := h c (List.mem_cons_self _ _)
    have hr := ih fun d hd => h d (List.mem_cons_of_mem _ hd)
    simp only [splitOnChar, if_neg hc, hr]

theorem splitOnChar_append_sep (sep : Char) (cs ds : List Char)
    (h : ∀ c ∈ cs, c ≠ sep) :
    splitOnChar sep (cs ++ sep :: ds) = cs :: splitOnChar sep ds := by
  induction cs with
  | nil => simp [splitOnChar]
  | cons c rest ih =>
    have hc : c ≠ sep := h c (List.mem_cons_self _ _)
    have hr := ih fun d hd => h d (List.mem_cons_of_mem _ hd)
    simp only [List.cons_append, splitOnChar, if_neg hc, List.append_eq, hr]

theorem aspect_to_string_of_parse {size : SizeSpec} {wh : Nat × Nat}
    (h : parse_size size = .ok wh) :
    aspect_to_string size = some (aspectString wh) := by
  simp [aspect_to_string, h, Except.toOption]

theorem parsePosDigits_eq_some {cs : List Char} {n : Nat}
    (h : parsePosDigits cs = some n) :
    cs ≠ [] ∧ cs.all Char.isDigit = true ∧ decimalValue cs = n ∧ 0 < n := by
  unfold parsePosDigits at h
  split at h
  · rename_i hg
    split at h
    · exact ⟨hg.1, hg.2, Option.some.inj h, Option.some.inj h ▸ (by assumption)⟩
    · exact absurd h (by simp)
  · exact absurd h (by simp)

theorem half_eq_floor_iff (d : Nat) :
    ((d : ℚ) / 2 = ((d / 2 : Nat) : ℚ)) ↔ 2 ∣ d := by
  rw [div_eq_iff (by norm_num : (2 : ℚ) ≠ 0)]
  rw [show ((d / 2 : Nat) : ℚ) * 2 = (((d / 2) * 2 : Nat) : ℚ) by push_cast; ring]
  rw [Nat.cast_inj]
  omega

/-- C5: color-mode normalization with an RGB-family target returns an RGBA
image unchanged, converts an LA image to RGBA and any other image to the
requested mode (the default target being RGB); a GRAY request converts to
single-channel "L" regardless of source mode; any other explicit mode is a
direct conversion. -/
theorem colormode_normalization (image : Image) (cm : String) :
    (colormode image = colormode image "RGB") ∧
    ((cm = "RGB" ∨ cm = "RGBA") →
      (image.mode = "RGBA" → colormode image cm = image) ∧
      (image.mode = "LA" → colormode image cm = { image with mode := "RGBA" }) ∧
      (image.mode ≠ "RGBA" → image.mode ≠ "LA" →
        colormode image cm = { image with mode := cm })) ∧
    (colormode image "GRAY" = { image with mode := "L" }) ∧
    (cm ≠ "RGB" → cm ≠ "RGBA" → cm ≠ "GRAY" →
      colormode image cm = { image with mode := cm }) := by
  refine ⟨rfl, fun hcm => ⟨?_, ?_, ?_⟩, ?_, fun h1 h2 h3 => ?_⟩
  · intro h; simp [colormode, hcm, h]
  · intro h
    by_cases hA : image.mode = "RGBA"
    · rw [hA] at h; exact absurd h (by decide)
    · simp [colormode, hcm, hA, h]
  · intro hA hLA; simp [colormode, hcm, hA, hLA]
  · have : ¬("GRAY" = "RGB" ∨ "GRAY" = "RGBA") := by decide
    simp [colormode, this]
  · have : ¬(cm = "RGB" ∨ cm = "RGBA") := by simp [h1, h2]
    simp [colormode, this, h3]

/-- C5 witness: the normalization evaluated on concrete images through
`colormode_normalization`. -/
theorem colormode_normalization_witness :
    colormode ⟨1, 1, "RGBA", "png"⟩ "RGB" = ⟨1, 1, "RGBA", "png"⟩ ∧
    colormode ⟨1, 1, "LA", "png"⟩ "RGB" = ⟨1, 1, "RGBA", "png"⟩ ∧
    colormode ⟨1, 1, "RGBA", "png"⟩ "GRAY" = ⟨1, 1, "L", "png"⟩ ∧
    colormode ⟨1, 1, "RGB", "png"⟩ "CMYK" = ⟨1, 1, "CMYK", "png"⟩ := by
  refine ⟨?_, ?_, ?_, ?_⟩
  · exact ((colormode_normalization ⟨1, 1, "RGBA", "png"⟩ "RGB").2.1
      (Or.inl rfl)).1 rfl
  · exact ((colormode_normalization ⟨1, 1, "LA", "png"⟩ "RGB").2.1
      (Or.inl rfl)).2.1 rfl
  · exact (colormode_normalization ⟨1, 1, "RGBA", "png"⟩ "RGB").2.2.1
  · exact (colormode_normalization ⟨1, 1, "RGB", "png"⟩ "CMYK").2.2.2
      (by decide) (by decide) (by decide)

/-- C3 counterexample: for a 3x2 image the vertical paste offset computed by
`background` is the true-division value 1/2, which is not the floored
integer offset floor((3 - 2) / 2) = 0 the claim states. -/
theorem background_offset_not_floor_example :
    (background ⟨3, 2, "RGB", "jpeg"⟩).pasteOffsetY
      ≠ (((max 3 2 - 2) / 2 : Nat) : ℚ) := by
  norm_num [background]

/-- C3 amended: the canvas is square with side max(width, height), and each
paste offset is the Python-3 true-division value (side - dim) / 2, which
equals the floored integer offset floor((side - dim) / 2) exactly when the
corresponding difference is even; for an odd difference the code passes a
non-integer half. -/
theorem background_canvas_amended (img : Image) :
    (background img).canvasSide = max img.width img.height ∧
    (background img).canvasMode = "L" ∧
    ((background img).pasteOffsetX
        = (((max img.width img.height - img.width) / 2 : Nat) : ℚ)
      ↔ 2 ∣ (max img.width img.height - img.width)) ∧
    ((background img).pasteOffsetY
        = (((max img.width img.height - img.height) / 2 : Nat) : ℚ)
      ↔ 2 ∣ (max img.width img.height - img.height)) := by
  refine ⟨rfl, rfl, ?_, ?_⟩
  · have hle : img.width ≤ max img.width img.height := le_max_left _ _
    have hc : (background img).pasteOffsetX
        = ((max img.width img.height - img.width : Nat) : ℚ) / 2 := by
      simp [background, Nat.cast_sub hle]
    rw [hc]
    exact half_eq_floor_iff _
  · have hle : img.height ≤ max img.width img.height := le_max_right _ _
    have hc : (background img).pasteOffsetY
        = ((max img.width img.height - img.height : Nat) : ℚ) / 2 := by
      simp [background, Nat.cast_sub hle]
    rw [hc]
    exact half_eq_floor_iff _

/-- C3 amended witness: both directions of the parity condition evaluated on
the 3x2 image through `background_canvas_amended`. -/
theorem background_canvas_amended_witness :
    (background ⟨3, 2, "RGB", "jpeg"⟩).canvasSide = 3 ∧
    (background ⟨3, 2, "RGB", "jpeg"⟩).pasteOffsetX = ((0 : Nat) : ℚ) ∧
    ¬ (background ⟨3, 2, "RGB", "jpeg"⟩).pasteOffsetY = ((0 : Nat) : ℚ) := by
  refine ⟨(background_canvas_amended ⟨3, 2, "RGB", "jpeg"⟩).1, ?_, ?_⟩
  · have h := (background_canvas_amended ⟨3, 2, "RGB", "jpeg"⟩).2.2.1.mpr
      (by decide)
    simpa using h
  · intro heq
    have h := (background_canvas_amended ⟨3, 2, "RGB", "jpeg"⟩).2.2.2.mp
      (by simpa using heq)
    exact absurd h (by decide)

/-- C10 counterexample: a falsy but non-None background value does trigger
padding — the output differs from the no-background call and coincides with
a truthy background value, so truthiness alone does not decide whether
padding is applied. -/
theorem background_truthiness_counterexample :
    _create_thumbnail ⟨4, 2, "RGB", "jpeg"⟩ (2, 2) "thumbnail" (some ⟨false⟩)
        ≠ _create_thumbnail ⟨4, 2, "RGB", "jpeg"⟩ (2, 2) "thumbnail" none ∧
    _create_thumbnail ⟨4, 2, "RGB", "jpeg"⟩ (2, 2) "thumbnail" (some ⟨false⟩)
      = _create_thumbnail ⟨4, 2, "RGB", "jpeg"⟩ (2, 2) "thumbnail"
        (some ⟨true⟩) := by
  decide

/-- C10 amended: whether padding is applied is decided by the background
option being non-None, not by its truthiness; the supplied value has no
other effect, and the padding canvas is always a single-channel "L" image
filled with level 0xFF. -/
theorem background_applied_iff_not_none (image : Image) (size : Nat × Nat)
    (crop : String) (v w : PyValue) :
    _create_thumbnail image size crop (some v)
      = _create_thumbnail image size crop (some w) ∧
    _create_thumbnail image size crop (some v)
      = colormode ((background
          (if crop = "fit" then pilFit image size
           else pilThumbnail image size)).toImage) ∧
    _create_thumbnail image size crop none
      = colormode
          (if crop = "fit" then pilFit image size else pilThumbnail image size) ∧
    (background image).canvasMode = "L" ∧
    (background image).canvasFill = 0xFF := by
  refine ⟨rfl, rfl, rfl, rfl, rfl⟩

/-- C6: every successful size parse yields strictly positive width and
height; malformed specifications (zero or negative values, non-numeric
components, malformed descriptors) are rejected with `InvalidSizeError`,
never silently zeroed. -/
theorem parse_size_positive (size : SizeSpec) (w h : Nat)
    (hok : parse_size size = .ok (w, h)) :
    0 < w ∧ 0 < h := by
  cases size with
  | int n =>
    simp only [parse_size] at hok
    split at hok
    · rename_i hpos
      have h2 := Except.ok.inj hok
      have hw : n.toNat = w := congrArg Prod.fst h2
      have hh : n.toNat = h := congrArg Prod.snd h2
      omega
    · simp at hok
  | str s =>
    simp only [parse_size] at hok
    split at hok
    · rename_i w' h' heq
      have h2 := Except.ok.inj hok
      have hw : w' = w := congrArg Prod.fst h2
      have hh : h' = h := congrArg Prod.snd h2
      have hmem1 : some w' ∈ (splitOnChar 'x' s.data).map parsePosDigits := by
        rw [heq]; simp
      have hmem2 : some h' ∈ (splitOnChar 'x' s.data).map parsePosDigits := by
        rw [heq]; simp
      obtain ⟨g1, -, hg1⟩ := List.mem_map.mp hmem1
      obtain ⟨g2, -, hg2⟩ := List.mem_map.mp hmem2
      have p1 := (parsePosDigits_eq_some hg1).2.2.2
      have p2 := (parsePosDigits_eq_some hg2).2.2.2
      omega
    · simp at hok

/-- C6 witness: `parse_size_positive` applied to the parse of "3x4". -/
theorem parse_size_positive_witness :
    parse_size (.str "3x4") = .ok (3, 4) ∧ 0 < 3 ∧ 0 < 4 :=
  ⟨by decide, parse_size_positive (.str "3x4") 3 4 (by decide)⟩

theorem string_ext {s t : String} (h : s.data = t.data) : s = t := by
  cases s; cases t; exact congrArg String.mk h

/-- C7: a size given as the positive integer n and as the string "NxN" (N any
decimal spelling of n) parse identically, canonicalize to the same string,
and therefore produce the same thumbnail filename. -/
theorem size_spelling_invariance (n : Nat) (s : String)
    (h : parsePosDigits s.data = some n) :
    parse_size (.str (s ++ "x" ++ s)) = .ok (n, n) ∧
    parse_size (.int (n : Int)) = .ok (n, n) ∧
    aspect_to_string (.str (s ++ "x" ++ s)) = aspect_to_string (.int (n : Int)) ∧
    ∀ fn crop bg q ext,
      generate_filename fn
          ((aspect_to_string (.str (s ++ "x" ++ s))).getD "") crop bg q ext
        = generate_filename fn
            ((aspect_to_string (.int (n : Int))).getD "") crop bg q ext := by
  obtain ⟨-, hdig, -, hpos⟩ := parsePosDigits_eq_some h
  have hx : ∀ c ∈ s.data, c ≠ 'x' := by
    intro c hc
    exact isDigit_ne c 'x' (by simpa using (List.all_eq_true.mp hdig c hc))
      (by decide)
  have hdata : (s ++ "x" ++ s).data = s.data ++ 'x' :: s.data := by
    rw [String.data_append, String.data_append]
    simp
  have hsplit : splitOnChar 'x' (s.data ++ 'x' :: s.data) = [s.data, s.data] := by
    rw [splitOnChar_append_sep 'x' s.data s.data hx,
      splitOnChar_of_not_mem 'x' s.data hx]
  have h1 : parse_size (.str (s ++ "x" ++ s)) = .ok (n, n) := by
    simp only [parse_size, hdata, hsplit, List.map_cons, List.map_nil, h]
  have h2 : parse_size (.int (n : Int)) = .ok (n, n) := by
    have hpos' : (0 : Int) < (n : Int) := by exact_mod_cast hpos
    simp only [parse_size, if_pos hpos']
    congr 1
  refine ⟨h1, h2, ?_, ?_⟩
  · rw [aspect_to_string_of_parse h1, aspect_to_string_of_parse h2]
  · intro fn crop bg q ext
    rw [aspect_to_string_of_parse h1, aspect_to_string_of_parse h2]

/-- C7 witness: `size_spelling_invariance` at n = 100, s = "100". -/
theorem size_spelling_invariance_witness :
    parsePosDigits ("100" : String).data = some 100 ∧
    parse_size (.str ("100" ++ "x" ++ "100")) = .ok (100, 100) ∧
    parse_size (.int (100 : Int)) = .ok (100, 100) ∧
    aspect_to_string (.str ("100" ++ "x" ++ "100"))
      = aspect_to_string (.int (100 : Int)) :=
  ⟨by decide,
   (size_spelling_invariance 100 "100" (by decide)).1,
   (size_spelling_invariance 100 "100" (by decide)).2.1,
   (size_spelling_invariance 100 "100" (by decide)).2.2.1⟩

theorem filenameOfStem_data (stem sizeStr crop : String) (bg : Bool)
    (q : Nat) (ext : String) :
    (filenameOfStem stem sizeStr crop bg q ext).data
      = stem.data ++ '_' :: (sizeStr.data ++ '_' :: (crop.data ++
          ((if bg then ("_background" : String) else "").data ++ '_' ::
            (natDigitsGo (q + 1) q ++ '.' :: ext.data)))) := by
  cases bg <;>
    simp [filenameOfStem, String.data_append, natStr,
      show ("_" : String).data = ['_'] from rfl,
      show ("." : String).data = ['.'] from rfl,
      show ("" : String).data = [] from rfl]

/-- C8: the filename derivation is a pure function of the
(stem, size string, crop, background flag, quality, extension) tuple, and
changing exactly one of those fields always changes the produced filename. -/
theorem filename_field_sensitivity (stem sizeStr crop : String) (bg : Bool)
    (q : Nat) (ext : String) :
    (filenameOfStem stem sizeStr crop bg q ext
        = filenameOfStem stem sizeStr crop bg q ext) ∧
    (∀ stem', stem ≠ stem' →
      filenameOfStem stem sizeStr crop bg q ext
        ≠ filenameOfStem stem' sizeStr crop bg q ext) ∧
    (∀ sizeStr', sizeStr ≠ sizeStr' →
      filenameOfStem stem sizeStr crop bg q ext
        ≠ filenameOfStem stem sizeStr' crop bg q ext) ∧
    (∀ crop', crop ≠ crop' →
      filenameOfStem stem sizeStr crop bg q ext
        ≠ filenameOfStem stem sizeStr crop' bg q ext) ∧
    (∀ bg', bg ≠ bg' →
      filenameOfStem stem sizeStr crop bg q ext
        ≠ filenameOfStem stem sizeStr crop bg' q ext) ∧
    (∀ q', q ≠ q' →
      filenameOfStem stem sizeStr crop bg q ext
        ≠ filenameOfStem stem sizeStr crop bg q' ext) ∧
    (∀ ext', ext ≠ ext' →
      filenameOfStem stem sizeStr crop bg q ext
        ≠ filenameOfStem stem sizeStr crop bg q ext') := by
  refine ⟨rfl, ?_, ?_, ?_, ?_, ?_, ?_⟩
  · intro stem' hne heq
    have hd := congrArg String.data heq
    rw [filenameOfStem_data, filenameOfStem_data] at hd
    exact hne (string_ext (List.append_cancel_right hd))
  · intro sizeStr' hne heq
    have hd := congrArg String.data heq
    rw [filenameOfStem_data, filenameOfStem_data] at hd
    have h1 := List.append_cancel_left hd
    have h2 := (List.cons.injEq _ _ _ _ ▸ h1).2
    exact hne (string_ext (List.append_cancel_right h2))
  · intro crop' hne heq
    have hd := congrArg String.data heq
    rw [filenameOfStem_data, filenameOfStem_data] at hd
    have h1 := (List.cons.injEq _ _ _ _ ▸ List.append_cancel_left hd).2
    have h2 := (List.cons.injEq _ _ _ _ ▸ List.append_cancel_left h1).2
    exact hne (string_ext (List.append_cancel_right h2))
  · intro bg' hne heq
    have hd := congrArg String.data heq
    rw [filenameOfStem_data, filenameOfStem_data] at hd
    have hlen := congrArg List.length hd
    cases bg <;> cases bg' <;> simp at hne hlen ⊢
    all_goals omega
  · intro q' hne heq
    have hd := congrArg String.data heq
    rw [filenameOfStem_data, filenameOfStem_data] at hd
    have h1 := (List.cons.injEq _ _ _ _ ▸ List.append_cancel_left hd).2
    have h2 := (List.cons.injEq _ _ _ _ ▸ List.append_cancel_left h1).2
    have h3 := List.append_cancel_left (List.append_cancel_left h2)
    have h4 := (List.cons.injEq _ _ _ _ ▸ h3).2
    have h5 := List.append_cancel_right h4
    exact hne (natStr_injective (show natStr q = natStr q' from
      congrArg String.mk h5))
  · intro ext' hne heq
    have hd := congrArg String.data heq
    rw [filenameOfStem_data, filenameOfStem_data] at hd
    have h1 := (List.cons.injEq _ _ _ _ ▸ List.append_cancel_left hd).2
    have h2 := (List.cons.injEq _ _ _ _ ▸ List.append_cancel_left h1).2
    have h3 := List.append_cancel_left (List.append_cancel_left h2)
    have h4 := (List.cons.injEq _ _ _ _ ▸ h3).2
    have h5 := List.append_cancel_left h4
    have h6 := (List.cons.injEq _ _ _ _ ▸ h5).2
    exact hne (string_ext h6)

/-- C8 witness: one-field changes evaluated through
`filename_field_sensitivity`. -/
theorem filename_field_sensitivity_witness :
    filenameOfStem "a" "1x1" "fit" false 90 "png"
        ≠ filenameOfStem "a" "1x1" "fit" false 85 "png" ∧
    filenameOfStem "a" "1x1" "fit" false 90 "png"
        ≠ filenameOfStem "a" "1x1" "fit" true 90 "png" ∧
    filenameOfStem "a" "1x1" "fit" false 90 "png"
        ≠ filenameOfStem "b" "1x1" "fit" false 90 "png" :=
  ⟨(filename_field_sensitivity "a" "1x1" "fit" false 90 "png").2.2.2.2.2.1
      85 (by decide),
   (filename_field_sensitivity "a" "1x1" "fit" false 90 "png").2.2.2.2.1
      true (by decide),
   (filename_field_sensitivity "a" "1x1" "fit" false 90 "png").2.1
      "b" (by decide)⟩

theorem div_bounds (a b : Nat) (hb : 0 < b) :
    (a / b) * b ≤ a ∧ a < (a / b) * b + b := by
  refine ⟨Nat.div_mul_le_self a b, ?_⟩
  have h1 := Nat.div_add_mod a b
  have h2 := Nat.mod_lt a hb
  have h3 : (a / b) * b = b * (a / b) := Nat.mul_comm _ _
  linarith

theorem colormode_dims (image : Image) (cm : String) :
    (colormode image cm).width = image.width ∧
      (colormode image cm).height = image.height := by
  unfold colormode
  split_ifs <;> simp_all

theorem pilThumbnailSize_le (w h bw bh : Nat) (hw : 0 < w) (hh : 0 < h)
    (hbw : 0 < bw) (hbh : 0 < bh) :
    (pilThumbnailSize w h bw bh).1 ≤ bw ∧
    (pilThumbnailSize w h bw bh).2 ≤ bh ∧
    (pilThumbnailSize w h bw bh).1 ≤ w ∧
    (pilThumbnailSize w h bw bh).2 ≤ h ∧
    (pilThumbnailSize w h bw bh).1 * h
      < (pilThumbnailSize w h bw bh).2 * w + (w + h) ∧
    (pilThumbnailSize w h bw bh).2 * w
      < (pilThumbnailSize w h bw bh).1 * h + (w + h) := by
  unfold pilThumbnailSize
  by_cases h1 : bw < w
  · simp only [if_pos h1]
    obtain ⟨hq1, hq2⟩ := div_bounds (h * bw) w hw
    generalize hgq : h * bw / w = q at hq1 hq2 ⊢
    have hqh : q ≤ h := by
      have hb : h * bw ≤ h * w := Nat.mul_le_mul_left h (le_of_lt h1)
      exact Nat.le_of_mul_le_mul_right (by linarith) hw
    by_cases h2 : bh < (bw, max q 1).2
    · simp only [if_pos h2]
      simp only at h2
      have hq0 : 1 ≤ q := by
        rcases Nat.eq_zero_or_pos q with h0 | h0
        · subst h0; simp at h2; omega
        · exact h0
      have hymax : max q 1 = q := Nat.max_eq_left hq0
      rw [hymax] at h2 ⊢
      obtain ⟨hp1, hp2⟩ := div_bounds (bw * bh) q (by omega)
      generalize hgp : bw * bh / q = p at hp1 hp2 ⊢
      have hpbw : 1 ≤ p → p < bw := by
        intro h0
        have t1 : p * (bh + 1) ≤ p * q := Nat.mul_le_mul_left p (by omega)
        have e1 : bw * (bh + 1) = bw * bh + bw := by ring
        have t3 : p * (bh + 1) < bw * (bh + 1) := by linarith
        exact lt_of_mul_lt_mul_right t3 (Nat.zero_le _)
      refine ⟨?_, le_refl bh, ?_, ?_, ?_, ?_⟩
      · rcases Nat.eq_zero_or_pos p with h0 | h0
        · subst h0; simpa using hbw
        · rw [Nat.max_eq_left h0]; exact le_of_lt (hpbw h0)
      · rcases Nat.eq_zero_or_pos p with h0 | h0
        · subst h0; simpa using hw
        · rw [Nat.max_eq_left h0]
          exact le_of_lt (lt_trans (hpbw h0) h1)
      · exact le_of_lt (lt_of_lt_of_le h2 hqh)
      · rcases Nat.eq_zero_or_pos p with h0 | h0
        · subst h0
          have hbhw : 0 < bh * w := Nat.mul_pos hbh hw
          simp only [Nat.zero_max, one_mul]
          linarith
        · rw [Nat.max_eq_left h0]
          have t1 : p * (h * bw) < p * (q * w + w) :=
            mul_lt_mul_of_pos_left (by linarith) h0
          have e1 : p * (q * w + w) = p * q * w + p * w := by ring
          have t2 : p * q * w ≤ bw * bh * w := Nat.mul_le_mul_right w hp1
          have t3 : (p + 1) * w ≤ bw * w :=
            Nat.mul_le_mul_right w (by omega : p + 1 ≤ bw)
          have e2 : (p + 1) * w = p * w + w := by ring
          have e3 : p * (h * bw) = p * h * bw := by ring
          have hhbw : 0 < h * bw := Nat.mul_pos hh hbw
          have t5 : p * h * bw < (bh * w + (w + h)) * bw := by
            have e5 : (bh * w + (w + h)) * bw
                = bw * bh * w + bw * w + h * bw := by ring
            linarith
          exact lt_of_mul_lt_mul_right t5 (Nat.zero_le _)
      · rcases Nat.eq_zero_or_pos p with h0 | h0
        · subst h0
          have t0 : bw * bh < q := by linarith
          have t1 : bw * bh * w < q * w :=
            mul_lt_mul_of_pos_right t0 hw
          have e1 : bw * bh * w = bh * w * bw := by ring
          have t3 : bh * w * bw < h * bw := by linarith
          have t4 : bh * w < h := lt_of_mul_lt_mul_right t3 (Nat.zero_le _)
          simp only [Nat.zero_max, one_mul]
          linarith
        · rw [Nat.max_eq_left h0]
          have t1 : bw * bh * w < (p + 1) * q * w := by
            have := mul_lt_mul_of_pos_right
              (by linarith : bw * bh < (p + 1) * q) hw
            linarith
          have t2 : (p + 1) * (q * w) ≤ (p + 1) * (h * bw) :=
            Nat.mul_le_mul_left (p + 1) hq1
          have e1 : (p + 1) * q * w = (p + 1) * (q * w) := by ring
          have e2 : (p + 1) * (h * bw) = (p + 1) * h * bw := by ring
          have e3 : bw * bh * w = bh * w * bw := by ring
          have t3 : bh * w * bw < (p + 1) * h * bw := by linarith
          have t4 : bh * w < (p + 1) * h :=
            lt_of_mul_lt_mul_right t3 (Nat.zero_le _)
          have e4 : (p + 1) * h = p * h + h := by ring
          linarith
    · simp only [if_neg h2]
      simp only at h2
      have hyb : max q 1 ≤ bh := Nat.le_of_not_lt h2
      refine ⟨le_refl bw, hyb, le_of_lt h1, max_le hqh hh, ?_, ?_⟩
      · rcases Nat.eq_zero_or_pos q with h0 | h0
        · subst h0
          have : h * bw < w := by linarith
          have e : h * bw = bw * h := by ring
          simp only [Nat.zero_max, one_mul]
          linarith
        · rw [Nat.max_eq_left h0]
          have e : h * bw = bw * h := by ring
          linarith
      · rcases Nat.eq_zero_or_pos q with h0 | h0
        · subst h0
          have hp : 0 < bw * h := Nat.mul_pos hbw hh
          simp only [Nat.zero_max, one_mul]
          linarith
        · rw [Nat.max_eq_left h0]
          have e : h * bw = bw * h := by ring
          linarith
  · simp only [if_neg h1]
    by_cases h2 : bh < (w, h).2
    · simp only [if_pos h2]
      simp only at h2
      obtain ⟨hq1, hq2⟩ := div_bounds (w * bh) h hh
      generalize hgq : w * bh / h = q at hq1 hq2 ⊢
      have hqw : q ≤ w := by
        have hb : w * bh ≤ w * h := Nat.mul_le_mul_left w (le_of_lt h2)
        exact Nat.le_of_mul_le_mul_right (by linarith) hh
      refine ⟨max_le (le_trans hqw (Nat.le_of_not_lt h1)) hbw, le_refl bh,
        max_le hqw hw, le_of_lt h2, ?_, ?_⟩
      · rcases Nat.eq_zero_or_pos q with h0 | h0
        · subst h0
          have hp : 0 < bh * w := Nat.mul_pos hbh hw
          simp only [Nat.zero_max, one_mul]
          linarith
        · rw [Nat.max_eq_left h0]
          have e : w * bh = bh * w := by ring
          linarith
      · rcases Nat.eq_zero_or_pos q with h0 | h0
        · subst h0
          have : w * bh < h := by linarith
          have e : w * bh = bh * w := by ring
          simp only [Nat.zero_max, one_mul]
          linarith
        · rw [Nat.max_eq_left h0]
          have e : w * bh = bh * w := by ring
          linarith
    · simp only [if_neg h2]
      simp only at h2
      have e : w * h = h * w := by ring
      exact ⟨Nat.le_of_not_lt h1, Nat.le_of_not_lt h2, le_refl w, le_refl h,
        by linarith, by linarith⟩

theorem takeWhile_all_eq {α : Type} {p : α → Bool} {as : List α}
    (h : ∀ c ∈ as, p c = true) : as.takeWhile p = as := by
  induction as with
  | nil => rfl
  | cons a as ih =>
    rw [List.takeWhile_cons, if_pos (h a (List.mem_cons_self _ _))]
    rw [ih fun c hc => h c (List.mem_cons_of_mem _ hc)]

theorem takeWhile_append_all {α : Type} {p : α → Bool} (as bs : List α)
    (h : ∀ c ∈ as, p c = true) :
    (as ++ bs).takeWhile p = as ++ bs.takeWhile p := by
  induction as with
  | nil => rfl
  | cons a as ih =>
    rw [List.cons_append, List.takeWhile_cons,
      if_pos (h a (List.mem_cons_self _ _)),
      ih fun c hc => h c (List.mem_cons_of_mem _ hc), List.cons_append]

theorem takeWhile_cons_of_neg {α : Type} {p : α → Bool} {a : α} (as : List α)
    (h : p a = false) : (a :: as).takeWhile p = [] := by
  rw [List.takeWhile_cons, if_neg (by simp [h])]

theorem pred_of_mem_takeWhile {α : Type} {p : α → Bool} {c : α} :
    ∀ {as : List α}, c ∈ as.takeWhile p → p c = true := by
  intro as
  induction as with
  | nil => intro h; simp at h
  | cons a as ih =>
    intro h
    rw [List.takeWhile_cons] at h
    by_cases hp : p a = true
    · rw [if_pos hp] at h
      rcases List.mem_cons.mp h with rfl | h
      · exact hp
      · exact ih h
    · rw [if_neg hp] at h; simp at h

theorem dropWhile_head_false {α : Type} {p : α → Bool} {c : α} {cs : List α} :
    ∀ {l : List α}, l.dropWhile p = c :: cs → p c = false := by
  intro l
  induction l with
  | nil => intro h; simp at h
  | cons a as ih =>
    intro h
    rw [List.dropWhile_cons] at h
    by_cases hp : p a = true
    · rw [if_pos hp] at h; exact ih h
    · rw [if_neg hp] at h
      cases h
      simpa using hp

theorem mem_of_mem_dropWhile {α : Type} {p : α → Bool} {c : α} :
    ∀ {l : List α}, c ∈ l.dropWhile p → c ∈ l := by
  intro l
  induction l with
  | nil => intro h; simp at h
  | cons a as ih =>
    intro h
    rw [List.dropWhile_cons] at h
    by_cases hp : p a = true
    · rw [if_pos hp] at h; exact List.mem_cons_of_mem _ (ih h)
    · rw [if_neg hp] at h; exact h

theorem lastSeg_of_noSlash {cs : List Char} (h : ∀ c ∈ cs, c ≠ '/') :
    lastSeg cs = cs := by
  unfold lastSeg
  rw [takeWhile_all_eq (by
    intro c hc
    exact decide_eq_true (h c (List.mem_reverse.mp hc)))]
  exact List.reverse_reverse cs

theorem lastSeg_append_cons (as bs : List Char) (h : ∀ c ∈ bs, c ≠ '/') :
    lastSeg (as ++ '/' :: bs) = bs := by
  unfold lastSeg
  rw [List.reverse_append, List.reverse_cons]
  rw [List.append_assoc, takeWhile_append_all _ _ (by
    intro c hc
    exact decide_eq_true (h c (List.mem_reverse.mp hc)))]
  rw [List.singleton_append, takeWhile_cons_of_neg _ (by simp)]
  simp

theorem string_data_empty : ("" : String).data = [] := rfl

theorem exists_concat_of_ne_nil {α : Type} :
    ∀ {l : List α}, l ≠ [] → ∃ l' x, l = l' ++ [x] := by
  intro l
  induction l with
  | nil => intro h; exact absurd rfl h
  | cons a as ih =>
    intro h
    cases as with
    | nil => exact ⟨[], a, rfl⟩
    | cons b bs =>
      obtain ⟨l', x, hl⟩ := ih (by simp)
      exact ⟨a :: l', x, by rw [hl]; rfl⟩

theorem exists_of_getLast?_eq_some {α : Type} {l : List α} {x : α}
    (h : l.getLast? = some x) : ∃ l', l = l' ++ [x] := by
  have hne : l ≠ [] := by intro hl; rw [hl] at h; simp at h
  obtain ⟨l', y, hl⟩ := exists_concat_of_ne_nil hne
  rw [hl, List.getLast?_concat] at h
  exact ⟨l', by rw [hl, Option.some.inj h]⟩

theorem getLast?_append_right {α : Type} (l₁ : List α) {l₂ : List α}
    (h : l₂ ≠ []) : (l₁ ++ l₂).getLast? = l₂.getLast? := by
  obtain ⟨l', x, hl⟩ := exists_concat_of_ne_nil h
  rw [hl, ← List.append_assoc, List.getLast?_concat, List.getLast?_concat]

theorem lastSeg_joinTwo (a b : String) (hb : ∀ c ∈ b.data, c ≠ '/')
    (hne : b.data ≠ []) : lastSeg (joinTwo a b).data = b.data := by
  unfold joinTwo
  split_ifs with hB hA
  · exfalso
    cases hd : b.data with
    | nil => exact hne hd
    | cons c cs =>
      rw [hd] at hB
      simp only [List.head?_cons, Option.some.injEq] at hB
      exact hb c (by rw [hd]; exact List.mem_cons_self _ _) hB
  · rw [String.data_append]
    rcases hA with hA | hA
    · subst hA
      rw [string_data_empty, List.nil_append]
      exact lastSeg_of_noSlash hb
    · obtain ⟨l', hl⟩ := exists_of_getLast?_eq_some hA
      rw [hl, List.append_assoc, List.singleton_append]
      exact lastSeg_append_cons l' b.data hb
  · rw [String.data_append, String.data_append, List.append_assoc,
      show ("/" : String).data = ['/'] from rfl, List.singleton_append]
    exact lastSeg_append_cons a.data b.data hb

theorem joinTwo_empty_cases (a : String) :
    (joinTwo a "").data = [] ∨ (joinTwo a "").data.getLast? = some '/' := by
  unfold joinTwo
  split_ifs with hB hA
  · simp at hB
  · rcases hA with hA | hA
    · left; subst hA; rfl
    · right
      rw [String.data_append, string_data_empty, List.append_nil]
      exact hA
  · right
    rw [String.data_append, String.data_append, string_data_empty,
      List.append_nil, show ("/" : String).data = ['/'] from rfl,
      List.getLast?_concat]

theorem getLast?_joinTwo (a b : String) (hb : ∀ c ∈ b.data, c ≠ '/')
    (hne : b.data ≠ []) :
    ∃ c, (joinTwo a b).data.getLast? = some c ∧ c ≠ '/' := by
  obtain ⟨l', x, hl⟩ := exists_concat_of_ne_nil hne
  have hx : x ∈ b.data := by rw [hl]; simp
  refine ⟨x, ?_, hb x hx⟩
  unfold joinTwo
  split_ifs with hB hA
  · rw [hl, List.getLast?_concat]
  · rw [String.data_append, getLast?_append_right _ hne, hl,
      List.getLast?_concat]
  · rw [String.data_append, getLast?_append_right _ hne, hl,
      List.getLast?_concat]

theorem splitExt_recompose (s : String) :
    (splitExt s).1.data ++ (splitExt s).2.data = s.data := by
  unfold splitExt
  cases hd : s.data.reverse.dropWhile (fun c => c ≠ '.') with
  | nil => simp
  | cons d stemRev =>
    have hsplit := List.takeWhile_append_dropWhile
      (p := fun c => decide (c ≠ '.')) (l := s.data.reverse)
    rw [hd] at hsplit
    by_cases hall : stemRev.all (fun c => c = '.')
    · simp [hall]
    · simp only [hall, Bool.false_eq_true, if_false]
      show stemRev.reverse ++ d ::
        (s.data.reverse.takeWhile (fun c => c ≠ '.')).reverse = s.data
      have e : stemRev.reverse ++ d ::
          (s.data.reverse.takeWhile (fun c => c ≠ '.')).reverse
          = ((s.data.reverse.takeWhile (fun c => c ≠ '.'))
              ++ d :: stemRev).reverse := by
        rw [List.reverse_append, List.reverse_cons, List.append_assoc,
          List.singleton_append]
      rw [e, hsplit, List.reverse_reverse]

theorem splitExt_ext_cases (s : String) :
    (splitExt s).2.data = [] ∨ ∃ cs, (splitExt s).2.data = '.' :: cs := by
  unfold splitExt
  cases hd : s.data.reverse.dropWhile (fun c => c ≠ '.') with
  | nil => left; rfl
  | cons d stemRev =>
    by_cases hall : stemRev.all (fun c => c = '.')
    · simp [hall]
    · simp only [hall, Bool.false_eq_true, if_false]
      right
      refine ⟨(s.data.reverse.takeWhile (fun c => c ≠ '.')).reverse, ?_⟩
      have hdot : d = '.' := by
        have := dropWhile_head_false hd
        simpa using this
      rw [hdot]

theorem mem_of_mem_splitExt_stem (s : String) :
    ∀ c ∈ (splitExt s).1.data, c ∈ s.data := by
  intro c hc
  unfold splitExt at hc
  revert hc
  cases hd : s.data.reverse.dropWhile (fun c => c ≠ '.') with
  | nil => intro hc; exact hc
  | cons d stemRev =>
    by_cases hall : stemRev.all (fun c => c = '.')
    · simp only [hall, if_true]
      intro hc; exact hc
    · simp only [hall, Bool.false_eq_true, if_false]
      intro hc
      have h1 : c ∈ stemRev := List.mem_reverse.mp hc
      have h2 : c ∈ d :: stemRev := List.mem_cons_of_mem _ h1
      rw [← hd] at h2
      exact List.mem_reverse.mp (mem_of_mem_dropWhile h2)

theorem generate_filename_ne (f sizeStr crop : String) (bg : Bool) (q : Nat)
    (ext : String) :
    (generate_filename f sizeStr crop bg q ext).data ≠ f.data := by
  intro heq
  rw [show generate_filename f sizeStr crop bg q ext
      = filenameOfStem (splitExt f).1 sizeStr crop bg q ext from rfl,
    filenameOfStem_data] at heq
  rw [← splitExt_recompose f] at heq
  have h2 := List.append_cancel_left heq
  rcases splitExt_ext_cases f with hc | ⟨cs, hc⟩
  · rw [hc] at h2; simp at h2
  · rw [hc] at h2
    have h3 := (List.cons.injEq _ _ _ _ ▸ h2).1
    exact absurd h3 (by decide)

theorem aspectString_data (wh : Nat × Nat) :
    (aspectString wh).data
      = natDigitsGo (wh.1 + 1) wh.1 ++ 'x' :: natDigitsGo (wh.2 + 1) wh.2 := by
  unfold aspectString natStr
  rw [String.data_append, String.data_append]
  rw [List.append_assoc]
  rfl

theorem aspectString_noSlash (wh : Nat × Nat) :
    ∀ c ∈ (aspectString wh).data, c ≠ '/' := by
  intro c hc
  rw [aspectString_data] at hc
  rcases List.mem_append.mp hc with h | h
  · exact isDigit_ne c '/' (natDigitsGo_isDigit _ _ c h) (by decide)
  · rcases List.mem_cons.mp h with rfl | h
    · decide
    · exact isDigit_ne c '/' (natDigitsGo_isDigit _ _ c h) (by decide)

theorem pathSplit_snd_noSlash (p : String) :
    ∀ c ∈ (pathSplit p).2.data, c ≠ '/' := by
  intro c hc
  have h1 : c ∈ (p.data.reverse.takeWhile (fun c => decide (c ≠ '/'))).reverse :=
    hc
  have h2 := pred_of_mem_takeWhile (List.mem_reverse.mp h1)
  exact of_decide_eq_true h2

theorem filename_noSlash (f sizeStr crop : String) (bg : Bool) (q : Nat)
    (ext : String)
    (hf : ∀ c ∈ f.data, c ≠ '/') (hsz : ∀ c ∈ sizeStr.data, c ≠ '/')
    (hcrop : ∀ c ∈ crop.data, c ≠ '/') (hext : ∀ c ∈ ext.data, c ≠ '/') :
    ∀ c ∈ (generate_filename f sizeStr crop bg q ext).data, c ≠ '/' := by
  intro c hc
  rw [show generate_filename f sizeStr crop bg q ext
      = filenameOfStem (splitExt f).1 sizeStr crop bg q ext from rfl,
    filenameOfStem_data] at hc
  have hbg : ∀ c ∈ (if bg then ("_background" : String) else "").data,
      c ≠ '/' := by
    cases bg
    · intro c hc; simp at hc
    · intro c hc
      have hall : ∀ c ∈ ("_background" : String).data, c ≠ '/' := by decide
      exact hall c (by simpa using hc)
  simp only [List.mem_append, List.mem_cons] at hc
  rcases hc with h | h
  · exact hf c (mem_of_mem_splitExt_stem f c h)
  rcases h with rfl | h
  · decide
  rcases h with h | h
  · exact hsz c h
  rcases h with rfl | h
  · decide
  rcases h with h | h
  · exact hcrop c h
  rcases h with h | h
  · exact hbg c h
  rcases h with rfl | h
  · decide
  rcases h with h | h
  · exact isDigit_ne c '/' (natDigitsGo_isDigit _ _ c h) (by decide)
  rcases h with rfl | h
  · decide
  · exact hext c h

theorem filename_ne_nil (f sizeStr crop : String) (bg : Bool) (q : Nat)
    (ext : String) :
    (generate_filename f sizeStr crop bg q ext).data ≠ [] := by
  rw [show generate_filename f sizeStr crop bg q ext
      = filenameOfStem (splitExt f).1 sizeStr crop bg q ext from rfl,
    filenameOfStem_data]
  simp

theorem read_save_ne (s : Storage) (p q : String) (b : List Nat) (h : q ≠ p) :
    (s.save p b).read q = s.read q := by
  unfold Storage.save Storage.read
  rw [List.find?_cons_of_neg]
  simp only [decide_eq_true_eq]
  exact fun hh => h hh.symm

theorem existsFile_save_self (s : Storage) (p : String) (b : List Nat) :
    (s.save p b).existsFile p = true := by
  unfold Storage.save Storage.existsFile
  rw [List.find?_cons_of_pos] <;> simp

theorem thumb_ne_orig (env : Env) (image : Image) (original : String)
    (wh : Nat × Nat) (opts : Options)
    (hcrop : ∀ c ∈ (opts.crop.getD "fit").data, c ≠ '/')
    (hfmt : ∀ c ∈ (get_format env image opts.format).data, c ≠ '/') :
    thumbnailFilepathOf env image original wh opts
      ≠ originalFilepathOf env original := by
  intro heq
  have hfn_noSlash : ∀ c ∈ (thumbnailFilenameOf env image original wh opts).data,
      c ≠ '/' :=
    filename_noSlash _ _ _ _ _ _ (pathSplit_snd_noSlash original)
      (aspectString_noSlash wh) hcrop hfmt
  have hfn_ne : (thumbnailFilenameOf env image original wh opts).data ≠ [] :=
    filename_ne_nil _ _ _ _ _ _
  have hd : (joinTwo (joinTwo env.thumbnailDirectory (pathSplit original).1)
        (thumbnailFilenameOf env image original wh opts)).data
      = (joinTwo (joinTwo env.rootDirectory (pathSplit original).1)
          (pathSplit original).2).data := congrArg String.data heq
  by_cases hfe : (pathSplit original).2.data = []
  · have hfstr : (pathSplit original).2 = "" := string_ext (by rw [hfe])
    rw [hfstr] at hd
    obtain ⟨c, hc1, hc2⟩ := getLast?_joinTwo
      (joinTwo env.thumbnailDirectory (pathSplit original).1)
      (thumbnailFilenameOf env image original wh opts) hfn_noSlash hfn_ne
    rcases joinTwo_empty_cases (joinTwo env.rootDirectory (pathSplit original).1)
      with h0 | h0
    · rw [← hd] at h0
      rw [h0] at hc1
      simp at hc1
    · rw [← hd] at h0
      rw [hc1] at h0
      exact hc2 (Option.some.inj h0)
  · have h1 := lastSeg_joinTwo
      (joinTwo env.thumbnailDirectory (pathSplit original).1)
      (thumbnailFilenameOf env image original wh opts) hfn_noSlash hfn_ne
    have h2 := lastSeg_joinTwo
      (joinTwo env.rootDirectory (pathSplit original).1)
      (pathSplit original).2 (pathSplit_snd_noSlash original) hfe
    rw [hd, h2] at h1
    exact generate_filename_ne (pathSplit original).2 (aspectString wh)
      (opts.crop.getD "fit") opts.background.isSome (opts.quality.getD 90)
      (get_format env image opts.format) h1.symm

theorem get_thumbnail_open_error_eq (env : Env) (storage : Storage)
    (original : String) (size : SizeSpec) (opts : Options) (wh : Nat × Nat)
    (bts : List Nat)
    (hparse : parse_size size = .ok wh)
    (hread : storage.read (originalFilepathOf env original) = some bts)
    (hopen : env.openImage bts = none) :
    get_thumbnail env storage original size opts
      = .error .unidentifiedImage := by
  unfold get_thumbnail
  rw [hparse]
  simp only [hread, hopen]

theorem get_thumbnail_load_fail_eq (env : Env) (storage : Storage)
    (original : String) (size : SizeSpec) (opts : Options) (wh : Nat × Nat)
    (bts : List Nat) (image : Image)
    (hparse : parse_size size = .ok wh)
    (hread : storage.read (originalFilepathOf env original) = some bts)
    (hopen : env.openImage bts = some image)
    (hload : env.load image = false) :
    get_thumbnail env storage original size opts
      = .ok (originalFilepathOf env original, storage,
          ⟨[originalFilepathOf env original], [], []⟩) := by
  unfold get_thumbnail
  rw [hparse]
  simp only [hread, hopen, hload, Bool.false_eq_true, if_false]

theorem get_thumbnail_hit_eq (env : Env) (storage : Storage)
    (original : String) (size : SizeSpec) (opts : Options) (wh : Nat × Nat)
    (bts : List Nat) (image : Image)
    (hparse : parse_size size = .ok wh)
    (hread : storage.read (originalFilepathOf env original) = some bts)
    (hopen : env.openImage bts = some image)
    (hload : env.load image = true)
    (hhit : storage.existsFile (thumbnailFilepathOf env image original wh opts)
      = true) :
    get_thumbnail env storage original size opts
      = .ok (thumbnailUrlOf env image original wh opts, storage,
          ⟨[originalFilepathOf env original],
           [thumbnailFilepathOf env image original wh opts], []⟩) := by
  unfold get_thumbnail
  rw [hparse]
  simp only [hread, hopen, hload, hhit, if_true]

theorem get_thumbnail_miss_eq (env : Env) (storage : Storage)
    (original : String) (size : SizeSpec) (opts : Options) (wh : Nat × Nat)
    (bts : List Nat) (image : Image)
    (hparse : parse_size size = .ok wh)
    (hread : storage.read (originalFilepathOf env original) = some bts)
    (hopen : env.openImage bts = some image)
    (hload : env.load image = true)
    (hmiss : storage.existsFile (thumbnailFilepathOf env image original wh opts)
      = false) :
    get_thumbnail env storage original size opts
      = .ok (thumbnailUrlOf env image original wh opts,
          storage.save (thumbnailFilepathOf env image original wh opts)
            (env.encode
              (_create_thumbnail image wh (opts.crop.getD "fit") opts.background)
              (get_format env image opts.format) (opts.quality.getD 90)),
          ⟨[originalFilepathOf env original],
           [thumbnailFilepathOf env image original wh opts],
           [(thumbnailFilepathOf env image original wh opts,
             env.encode
               (_create_thumbnail image wh (opts.crop.getD "fit") opts.background)
               (get_format env image opts.format) (opts.quality.getD 90))]⟩) := by
  unfold get_thumbnail
  rw [hparse]
  simp only [hread, hopen, hload, hmiss, Bool.false_eq_true, if_false, if_true]

theorem get_thumbnail_parse_error_eq (env : Env) (storage : Storage)
    (original : String) (size : SizeSpec) (opts : Options) (e : ThumbError)
    (hparse : parse_size size = .error e) :
    get_thumbnail env storage original size opts = .error e := by
  unfold get_thumbnail
  rw [hparse]

theorem get_thumbnail_notfound_eq (env : Env) (storage : Storage)
    (original : String) (size : SizeSpec) (opts : Options) (wh : Nat × Nat)
    (hparse : parse_size size = .ok wh)
    (hread : storage.read (originalFilepathOf env original) = none) :
    get_thumbnail env storage original size opts = .error .notFound := by
  unfold get_thumbnail
  rw [hparse]
  simp only [hread]

set_option maxHeartbeats 2000000 in
theorem get_thumbnail_writes_not_exists (env : Env) (storage : Storage)
    (original : String) (size : SizeSpec) (opts : Options) (url : String)
    (storage' : Storage) (tr : Trace)
    (hok : get_thumbnail env storage original size opts = .ok (url, storage', tr)) :
    ∀ pb ∈ tr.writes,
      storage.existsFile pb.1 = false ∧ pb.1 ∈ tr.existsChecks := by
  cases hp : parse_size size with
  | error e =>
    rw [get_thumbnail_parse_error_eq env storage original size opts e hp] at hok
    exact absurd hok (by simp)
  | ok wh =>
    cases hr : storage.read (originalFilepathOf env original) with
    | none =>
      rw [get_thumbnail_notfound_eq env storage original size opts wh hp hr]
        at hok
      exact absurd hok (by simp)
    | some bts =>
      cases ho : env.openImage bts with
      | none =>
        rw [get_thumbnail_open_error_eq env storage original size opts wh bts
          hp hr ho] at hok
        exact absurd hok (by simp)
      | some image =>
        cases hl : env.load image with
        | false =>
          rw [get_thumbnail_load_fail_eq env storage original size opts wh bts
            image hp hr ho hl] at hok
          obtain ⟨-, -, htr⟩ : _ ∧ _ ∧ _ = tr := by
            simpa [Prod.ext_iff] using Except.ok.inj hok
          subst htr
          intro pb hpb
          simp at hpb
        | true =>
          cases hex : storage.existsFile
              (thumbnailFilepathOf env image original wh opts) with
          | true =>
            rw [get_thumbnail_hit_eq env storage original size opts wh bts image
              hp hr ho hl hex] at hok
            obtain ⟨-, -, htr⟩ : _ ∧ _ ∧ _ = tr := by
              simpa [Prod.ext_iff] using Except.ok.inj hok
            subst htr
            intro pb hpb
            simp at hpb
          | false =>
            rw [get_thumbnail_miss_eq env storage original size opts wh bts image
              hp hr ho hl hex] at hok
            obtain ⟨-, -, htr⟩ : _ ∧ _ ∧ _ = tr := by
              simpa [Prod.ext_iff] using Except.ok.inj hok
            subst htr
            intro pb hpb
            have hpb' := List.mem_singleton.mp hpb
            refine ⟨?_, ?_⟩
            · rw [hpb']
              exact hex
            · rw [hpb']
              exact List.mem_singleton.mpr rfl

/-- C2 counterexample: bytes that `Image.open` cannot identify make the
concrete call raise (the exception propagates as an error), instead of
returning the original's resolved path as the claim states: line 101 sits
outside the try block of lines 102-106. -/
theorem get_thumbnail_open_failure_raises :
    get_thumbnail
        ⟨"media", "thumbs", "/t", none, fun _ => none, fun _ => true,
          fun _ _ _ => []⟩
        ⟨[("media/a/b.png", [9])]⟩ "a/b.png" (.int 1) {}
      = .error .unidentifiedImage ∧
    get_thumbnail
        ⟨"media", "thumbs", "/t", none, fun _ => none, fun _ => true,
          fun _ _ _ => []⟩
        ⟨[("media/a/b.png", [9])]⟩ "a/b.png" (.int 1) {}
      ≠ .ok ("media/a/b.png", ⟨[("media/a/b.png", [9])]⟩,
          ⟨["media/a/b.png"], [], []⟩) := by
  decide

/-- C2 amended: only a pixel-data load failure (the IOError/OSError raised
inside `image.load()` and caught at lines 102-106) is recovered: the call
then does not raise, logs a warning, returns the original's resolved
filesystem path (not a thumbnail URL), leaves storage unchanged and performs
zero storage writes; bytes that `Image.open` itself cannot identify as an
image (line 101, outside the try block) raise uncaught, also without any
storage write. -/
theorem get_thumbnail_load_failure_fallback (env : Env) (storage : Storage)
    (original : String) (size : SizeSpec) (opts : Options) (wh : Nat × Nat)
    (bts : List Nat)
    (hparse : parse_size size = .ok wh)
    (hread : storage.read (originalFilepathOf env original) = some bts) :
    (∀ image, env.openImage bts = some image → env.load image = false →
      get_thumbnail env storage original size opts
        = .ok (originalFilepathOf env original, storage,
            ⟨[originalFilepathOf env original], [], []⟩)) ∧
    (env.openImage bts = none →
      get_thumbnail env storage original size opts
        = .error .unidentifiedImage) :=
  ⟨fun image hopen hload => get_thumbnail_load_fail_eq env storage original
      size opts wh bts image hparse hread hopen hload,
    fun hopen => get_thumbnail_open_error_eq env storage original size opts
      wh bts hparse hread hopen⟩

/-- C2 amended witness: `get_thumbnail_load_failure_fallback` applied to a
concrete load-failure call (fallback, zero writes) and to a concrete
open-failure call (error propagates). -/
theorem get_thumbnail_load_failure_fallback_witness :
    get_thumbnail
        ⟨"media", "thumbs", "/t", none,
          fun _ => some ⟨400, 300, "RGB", "jpeg"⟩, fun _ => false,
          fun _ _ _ => []⟩
        ⟨[("media/a/b.png", [9])]⟩ "a/b.png" (.int 1) {}
      = .ok ("media/a/b.png", ⟨[("media/a/b.png", [9])]⟩,
          ⟨["media/a/b.png"], [], []⟩) ∧
    get_thumbnail
        ⟨"media", "thumbs", "/t", none, fun _ => none, fun _ => true,
          fun _ _ _ => []⟩
        ⟨[("media/a/b.png", [9])]⟩ "a/b.png" (.int 1) {}
      = .error .unidentifiedImage := by
  constructor
  · exact (get_thumbnail_load_failure_fallback
      ⟨"media", "thumbs", "/t", none,
        fun _ => some ⟨400, 300, "RGB", "jpeg"⟩, fun _ => false,
        fun _ _ _ => []⟩
      ⟨[("media/a/b.png", [9])]⟩ "a/b.png" (.int 1) {} (1, 1) [9]
      (by decide) (by decide)).1 ⟨400, 300, "RGB", "jpeg"⟩ rfl rfl
  · exact (get_thumbnail_load_failure_fallback
      ⟨"media", "thumbs", "/t", none, fun _ => none, fun _ => true,
        fun _ _ _ => []⟩
      ⟨[("media/a/b.png", [9])]⟩ "a/b.png" (.int 1) {} (1, 1) [9]
      (by decide) (by decide)).2 rfl

set_option maxHeartbeats 2000000 in
/-- C1: from a state where the fingerprinted path does not yet exist,
calling `get_thumbnail` twice with identical arguments performs exactly one
storage save — the first call writes exactly one entry, the second finds the
path exists and returns with zero writes — both calls return the same
reference, and (in any call, from any state) `save` is only invoked for a
path whose existence check returned false. -/
theorem get_thumbnail_idempotent_one_save (env : Env) (storage : Storage)
    (original : String) (size : SizeSpec) (opts : Options) (wh : Nat × Nat)
    (bts : List Nat) (image : Image)
    (hparse : parse_size size = .ok wh)
    (hread : storage.read (originalFilepathOf env original) = some bts)
    (hopen : env.openImage bts = some image)
    (hload : env.load image = true)
    (hmiss : storage.existsFile (thumbnailFilepathOf env image original wh opts)
      = false)
    (hcrop : ∀ c ∈ (opts.crop.getD "fit").data, c ≠ '/')
    (hfmt : ∀ c ∈ (get_format env image opts.format).data, c ≠ '/') :
    ∃ url storage1 d,
      get_thumbnail env storage original size opts
        = .ok (url, storage1,
            ⟨[originalFilepathOf env original],
             [thumbnailFilepathOf env image original wh opts],
             [(thumbnailFilepathOf env image original wh opts, d)]⟩) ∧
      get_thumbnail env storage1 original size opts
        = .ok (url, storage1,
            ⟨[originalFilepathOf env original],
             [thumbnailFilepathOf env image original wh opts], []⟩) ∧
      (∀ storage0 url0 storage0' tr0,
        get_thumbnail env storage0 original size opts
          = .ok (url0, storage0', tr0) →
        ∀ pb ∈ tr0.writes, storage0.existsFile pb.1 = false) := by
  refine ⟨thumbnailUrlOf env image original wh opts,
    storage.save (thumbnailFilepathOf env image original wh opts)
      (env.encode
        (_create_thumbnail image wh (opts.crop.getD "fit") opts.background)
        (get_format env image opts.format) (opts.quality.getD 90)),
    env.encode
      (_create_thumbnail image wh (opts.crop.getD "fit") opts.background)
      (get_format env image opts.format) (opts.quality.getD 90),
    get_thumbnail_miss_eq env storage original size opts wh bts image hparse
      hread hopen hload hmiss, ?_, ?_⟩
  · have hne : originalFilepathOf env original
        ≠ thumbnailFilepathOf env image original wh opts :=
      Ne.symm (thumb_ne_orig env image original wh opts hcrop hfmt)
    have hread1 : (storage.save
          (thumbnailFilepathOf env image original wh opts)
          (env.encode
            (_create_thumbnail image wh (opts.crop.getD "fit") opts.background)
            (get_format env image opts.format)
            (opts.quality.getD 90))).read (originalFilepathOf env original)
        = some bts := by
      rw [read_save_ne _ _ _ _ hne]
      exact hread
    have hhit1 := existsFile_save_self storage
      (thumbnailFilepathOf env image original wh opts)
      (env.encode
        (_create_thumbnail image wh (opts.crop.getD "fit") opts.background)
        (get_format env image opts.format) (opts.quality.getD 90))
    exact get_thumbnail_hit_eq env _ original size opts wh bts image hparse
      hread1 hopen hload hhit1
  · intro storage0 url0 storage0' tr0 h0 pb hpb
    exact (get_thumbnail_writes_not_exists env storage0 original size opts
      url0 storage0' tr0 h0 pb hpb).1

/-- C1 witness: the cold-cache scenario run twice on a concrete store
through `get_thumbnail_idempotent_one_save`. -/
theorem get_thumbnail_idempotent_one_save_witness :
    ∃ url storage1 d,
      get_thumbnail
          ⟨"media", "thumbs", "/t", none,
            fun _ => some ⟨400, 300, "RGB", "jpeg"⟩, fun _ => true,
                  fun _ _ _ => [7]⟩
          ⟨[("media/a/b.png", [1, 2])]⟩ "a/b.png" (.int 100) {}
        = .ok (url, storage1,
            ⟨[originalFilepathOf
                ⟨"media", "thumbs", "/t", none,
                  fun _ => some ⟨400, 300, "RGB", "jpeg"⟩, fun _ => true,
                  fun _ _ _ => [7]⟩
                "a/b.png"],
             [thumbnailFilepathOf
                ⟨"media", "thumbs", "/t", none,
                  fun _ => some ⟨400, 300, "RGB", "jpeg"⟩, fun _ => true,
                  fun _ _ _ => [7]⟩
                ⟨400, 300, "RGB", "jpeg"⟩ "a/b.png" (100, 100) {}],
             [(thumbnailFilepathOf
                 ⟨"media", "thumbs", "/t", none,
                   fun _ => some ⟨400, 300, "RGB", "jpeg"⟩, fun _ => true,
                  fun _ _ _ => [7]⟩
                 ⟨400, 300, "RGB", "jpeg"⟩ "a/b.png" (100, 100) {}, d)]⟩) ∧
      get_thumbnail
          ⟨"media", "thumbs", "/t", none,
            fun _ => some ⟨400, 300, "RGB", "jpeg"⟩, fun _ => true,
                  fun _ _ _ => [7]⟩
          storage1 "a/b.png" (.int 100) {}
        = .ok (url, storage1,
            ⟨[originalFilepathOf
                ⟨"media", "thumbs", "/t", none,
                  fun _ => some ⟨400, 300, "RGB", "jpeg"⟩, fun _ => true,
                  fun _ _ _ => [7]⟩
                "a/b.png"],
             [thumbnailFilepathOf
                ⟨"media", "thumbs", "/t", none,
                  fun _ => some ⟨400, 300, "RGB", "jpeg"⟩, fun _ => true,
                  fun _ _ _ => [7]⟩
                ⟨400, 300, "RGB", "jpeg"⟩ "a/b.png" (100, 100) {}], []⟩) ∧
      (∀ storage0 url0 storage0' tr0,
        get_thumbnail
            ⟨"media", "thumbs", "/t", none,
              fun _ => some ⟨400, 300, "RGB", "jpeg"⟩, fun _ => true,
                  fun _ _ _ => [7]⟩
            storage0 "a/b.png" (.int 100) {}
          = .ok (url0, storage0', tr0) →
        ∀ pb ∈ tr0.writes, storage0.existsFile pb.1 = false) :=
  get_thumbnail_idempotent_one_save
    ⟨"media", "thumbs", "/t", none,
      fun _ => some ⟨400, 300, "RGB", "jpeg"⟩, fun _ => true,
                  fun _ _ _ => [7]⟩
    ⟨[("media/a/b.png", [1, 2])]⟩ "a/b.png" (.int 100) {} (100, 100) [1, 2]
    ⟨400, 300, "RGB", "jpeg"⟩ (by decide) (by decide) rfl rfl (by decide)
    (by decide) (by decide)

set_option maxHeartbeats 2000000 in
/-- C9: every completed `get_thumbnail` call performs exactly one storage
read, of the original's resolved path — even when the thumbnail already
exists — and never writes to the original: the only write target differs
from the original's path and the stored original is unchanged after the
call. -/
theorem get_thumbnail_single_read_no_original_write
    (env : Env) (storage : Storage) (original : String) (size : SizeSpec)
    (opts : Options) (url : String) (storage' : Storage) (tr : Trace)
    (hcrop : ∀ c ∈ (opts.crop.getD "fit").data, c ≠ '/')
    (hfmt : ∀ bts image, env.openImage bts = some image →
      ∀ c ∈ (get_format env image opts.format).data, c ≠ '/')
    (hok : get_thumbnail env storage original size opts
      = .ok (url, storage', tr)) :
    tr.reads = [originalFilepathOf env original] ∧
    (∀ pb ∈ tr.writes, pb.1 ≠ originalFilepathOf env original) ∧
    storage'.read (originalFilepathOf env original)
      = storage.read (originalFilepathOf env original) := by
  cases hp : parse_size size with
  | error e =>
    rw [get_thumbnail_parse_error_eq env storage original size opts e hp] at hok
    exact absurd hok (by simp)
  | ok wh =>
    cases hr : storage.read (originalFilepathOf env original) with
    | none =>
      rw [get_thumbnail_notfound_eq env storage original size opts wh hp hr]
        at hok
      exact absurd hok (by simp)
    | some bts =>
      cases ho : env.openImage bts with
      | none =>
        rw [get_thumbnail_open_error_eq env storage original size opts wh bts
          hp hr ho] at hok
        exact absurd hok (by simp)
      | some image =>
        cases hl : env.load image with
        | false =>
          rw [get_thumbnail_load_fail_eq env storage original size opts wh bts
            image hp hr ho hl] at hok
          have hinj := Except.ok.inj hok
          have hst : storage = storage' := congrArg (fun t => t.2.1) hinj
          have htr : (⟨[originalFilepathOf env original], [], []⟩ : Trace)
              = tr := congrArg (fun t => t.2.2) hinj
          subst htr
          refine ⟨rfl, ?_, ?_⟩
          · intro pb hpb; simp at hpb
          · rw [← hst]; exact hr
        | true =>
          cases hex : storage.existsFile
              (thumbnailFilepathOf env image original wh opts) with
          | true =>
            rw [get_thumbnail_hit_eq env storage original size opts wh bts image
              hp hr ho hl hex] at hok
            have hinj := Except.ok.inj hok
            have hst : storage = storage' := congrArg (fun t => t.2.1) hinj
            have htr : (⟨[originalFilepathOf env original],
                [thumbnailFilepathOf env image original wh opts], []⟩ : Trace)
                = tr := congrArg (fun t => t.2.2) hinj
            subst htr
            refine ⟨rfl, ?_, ?_⟩
            · intro pb hpb; simp at hpb
            · rw [← hst]; exact hr
          | false =>
            rw [get_thumbnail_miss_eq env storage original size opts wh bts
              image hp hr ho hl hex] at hok
            have hinj := Except.ok.inj hok
            have hst : storage.save
                (thumbnailFilepathOf env image original wh opts)
                (env.encode
                  (_create_thumbnail image wh (opts.crop.getD "fit")
                    opts.background)
                  (get_format env image opts.format) (opts.quality.getD 90))
                = storage' := congrArg (fun t => t.2.1) hinj
            have htr : (⟨[originalFilepathOf env original],
                [thumbnailFilepathOf env image original wh opts],
                [(thumbnailFilepathOf env image original wh opts,
                  env.encode
                    (_create_thumbnail image wh (opts.crop.getD "fit")
                      opts.background)
                    (get_format env image opts.format)
                    (opts.quality.getD 90))]⟩ : Trace) = tr :=
              congrArg (fun t => t.2.2) hinj
            subst htr
            have hne : thumbnailFilepathOf env image original wh opts
                ≠ originalFilepathOf env original :=
              thumb_ne_orig env image original wh opts hcrop (hfmt bts image ho)
            refine ⟨rfl, ?_, ?_⟩
            · intro pb hpb
              have hpb' := List.mem_singleton.mp hpb
              rw [hpb']
              exact hne
            · rw [← hst, read_save_ne storage _ _ _ (Ne.symm hne)]
              exact hr

/-- C9 witness: a cache-hit call on a concrete pre-warmed store through
`get_thumbnail_single_read_no_original_write` — the original is still read
exactly once and never written. -/
theorem get_thumbnail_single_read_no_original_write_witness :
    (⟨["media/a/b.png"], ["thumbs/a/b_100x100_fit_90.jpeg"], []⟩ :
        Trace).reads
      = [originalFilepathOf
          ⟨"media", "thumbs", "/t", none,
            fun _ => some ⟨400, 300, "RGB", "jpeg"⟩, fun _ => true,
                  fun _ _ _ => [7]⟩
          "a/b.png"] ∧
    (∀ pb ∈ (⟨["media/a/b.png"], ["thumbs/a/b_100x100_fit_90.jpeg"], []⟩ :
        Trace).writes,
      pb.1 ≠ originalFilepathOf
        ⟨"media", "thumbs", "/t", none,
          fun _ => some ⟨400, 300, "RGB", "jpeg"⟩, fun _ => true,
                  fun _ _ _ => [7]⟩
        "a/b.png") ∧
    (⟨[("media/a/b.png", [1, 2]),
       ("thumbs/a/b_100x100_fit_90.jpeg", [7])]⟩ : Storage).read
        (originalFilepathOf
          ⟨"media", "thumbs", "/t", none,
            fun _ => some ⟨400, 300, "RGB", "jpeg"⟩, fun _ => true,
                  fun _ _ _ => [7]⟩
          "a/b.png")
      = (⟨[("media/a/b.png", [1, 2]),
           ("thumbs/a/b_100x100_fit_90.jpeg", [7])]⟩ : Storage).read
          (originalFilepathOf
            ⟨"media", "thumbs", "/t", none,
              fun _ => some ⟨400, 300, "RGB", "jpeg"⟩, fun _ => true,
                  fun _ _ _ => [7]⟩
            "a/b.png") :=
  get_thumbnail_single_read_no_original_write
    ⟨"media", "thumbs", "/t", none,
      fun _ => some ⟨400, 300, "RGB", "jpeg"⟩, fun _ => true,
                  fun _ _ _ => [7]⟩
    ⟨[("media/a/b.png", [1, 2]), ("thumbs/a/b_100x100_fit_90.jpeg", [7])]⟩
    "a/b.png" (.int 100) {} "/t/a/b_100x100_fit_90.jpeg"
    ⟨[("media/a/b.png", [1, 2]), ("thumbs/a/b_100x100_fit_90.jpeg", [7])]⟩
    ⟨["media/a/b.png"], ["thumbs/a/b_100x100_fit_90.jpeg"], []⟩
    (by decide)
    (fun bts image hdec => by
      cases Option.some.inj hdec
      decide)
    (by decide)

/-- C4: with crop = "fit" the transform output has exactly the requested
(width, height); with any other crop token the output never exceeds the
requested bounds on either axis, is never upscaled beyond the original
dimensions, and preserves the source aspect ratio within rounding (the cross
products of output and source dimensions differ by less than
width + height of the source). -/
theorem create_thumbnail_size_bounds (image : Image) (bw bh : Nat)
    (crop : String) (hw : 0 < image.width) (hh : 0 < image.height)
    (hbw : 0 < bw) (hbh : 0 < bh) :
    (crop = "fit" →
      (_create_thumbnail image (bw, bh) crop none).width = bw ∧
      (_create_thumbnail image (bw, bh) crop none).height = bh) ∧
    (crop ≠ "fit" →
      (_create_thumbnail image (bw, bh) crop none).width ≤ bw ∧
      (_create_thumbnail image (bw, bh) crop none).height ≤ bh ∧
      (_create_thumbnail image (bw, bh) crop none).width ≤ image.width ∧
      (_create_thumbnail image (bw, bh) crop none).height ≤ image.height ∧
      (_create_thumbnail image (bw, bh) crop none).width * image.height
        < (_create_thumbnail image (bw, bh) crop none).height * image.width
          + (image.width + image.height) ∧
      (_create_thumbnail image (bw, bh) crop none).height * image.width
        < (_create_thumbnail image (bw, bh) crop none).width * image.height
          + (image.width + image.height)) := by
  have hct : _create_thumbnail image (bw, bh) crop none
      = colormode (if crop = "fit" then pilFit image (bw, bh)
          else pilThumbnail image (bw, bh)) := by
    simp [_create_thumbnail]
  constructor
  · intro hc
    rw [hct, if_pos hc]
    exact ⟨(colormode_dims _ _).1, (colormode_dims _ _).2⟩
  · intro hc
    rw [hct, if_neg hc]
    obtain ⟨b1, b2, b3, b4, b5, b6⟩ := pilThumbnailSize_le image.width
      image.height bw bh hw hh hbw hbh
    rw [(colormode_dims _ _).1, (colormode_dims _ _).2]
    exact ⟨b1, b2, b3, b4, b5, b6⟩

/-- C4 witness: `create_thumbnail_size_bounds` evaluated for a 400x300 image
at target 100x100 in both crop modes. -/
theorem create_thumbnail_size_bounds_witness :
    ((_create_thumbnail ⟨400, 300, "RGB", "jpeg"⟩ (100, 100) "fit" none).width
        = 100 ∧
      (_create_thumbnail ⟨400, 300, "RGB", "jpeg"⟩ (100, 100) "fit"
        none).height = 100) ∧
    ((_create_thumbnail ⟨400, 300, "RGB", "jpeg"⟩ (100, 100) "thumbnail"
        none).width ≤ 100 ∧
      (_create_thumbnail ⟨400, 300, "RGB", "jpeg"⟩ (100, 100) "thumbnail"
        none).height ≤ 100 ∧
      (_create_thumbnail ⟨400, 300, "RGB", "jpeg"⟩ (100, 100) "thumbnail"
        none).width ≤ 400 ∧
      (_create_thumbnail ⟨400, 300, "RGB", "jpeg"⟩ (100, 100) "thumbnail"
        none).height ≤ 300 ∧
      (_create_thumbnail ⟨400, 300, "RGB", "jpeg"⟩ (100, 100) "thumbnail"
          none).width * 300
        < (_create_thumbnail ⟨400, 300, "RGB", "jpeg"⟩ (100, 100) "thumbnail"
            none).height * 400 + (400 + 300) ∧
      (_create_thumbnail ⟨400, 300, "RGB", "jpeg"⟩ (100, 100) "thumbnail"
          none).height * 400
        < (_create_thumbnail ⟨400, 300, "RGB", "jpeg"⟩ (100, 100) "thumbnail"
            none).width * 300 + (400 + 300)) :=
  ⟨(create_thumbnail_size_bounds ⟨400, 300, "RGB", "jpeg"⟩ 100 100 "fit"
      (by decide) (by decide) (by decide) (by decide)).1 rfl,
   (create_thumbnail_size_bounds ⟨400, 300, "RGB", "jpeg"⟩ 100 100 "thumbnail"
      (by decide) (by decide) (by decide) (by decide)).2 (by decide)⟩

end FlaskThumbnails

